import Mathlib

/-!
Verification development for the direct TCP video streaming pipeline
(`WebRTC_Streaming/direct_sender.py` and `WebRTC_Streaming/direct_receiver.py`).

The wire protocol, the receiver's framed-read loop, the bounded frame
buffers, the sender's statistics updates, the reconnect handling of the
transmit pump and the capture loop are embedded shallowly as executable
Lean functions, translated line by line from the Python source.  Bytes are
`Nat` values (0..255); a TCP stream is modelled as the list of data chunks
that successive `socket.recv` calls can observe, which quantifies over all
admissible fragmentations of the byte stream.  Wall-clock durations and
the opaque image decode (`pickle.loads` + `cv2.imdecode`) are parameters
of the model.
-/

namespace WebRTCStream

/-- A decoded video frame, modelled by its raw byte content.  The pipeline
treats frames as opaque payloads; nothing in the verified properties
depends on image structure. -/
abbrev Frame := List Nat

/-- A TCP byte stream as observed by the receiver: the list of data chunks
that successive `recv` calls return.  Each chunk is what the kernel buffer
holds when `recv` is invoked; an exhausted list models the peer having
closed the connection (`recv` returns an empty byte string). -/
abbrev ByteStream := List (List Nat)

/-- Embedding of `struct.pack(">L", n)` (used at `direct_sender.py:127`
and `direct_sender.py:383`): the four big-endian bytes of `n`.  The Python
call raises for `n ≥ 2^32`; theorems that rely on the prefix round-trip
carry that bound as a hypothesis. -/
def beBytes4 (n : Nat) : List Nat :=
  [n / 2 ^ 24 % 256, n / 2 ^ 16 % 256, n / 2 ^ 8 % 256, n % 256]

/-- Embedding of `struct.unpack(">L", bs)` on a 4-byte buffer
(`direct_receiver.py:128`): big-endian base-256 value of the bytes. -/
def beUint32 (bs : List Nat) : Nat :=
  bs.foldl (fun a b => a * 256 + b) 0

/-- Embedding of `collections.deque(maxlen=m).append(x)`: when the deque
already holds `maxlen` elements the oldest is evicted before appending
(used for the rolling 30-sample statistics windows on both peers). -/
def dequeAppend (maxlen : Nat) (l : List α) (x : α) : List α :=
  if maxlen ≤ l.length then l.drop (l.length + 1 - maxlen) ++ [x] else l ++ [x]

/-- Embedding of `client_socket.recv(n)`: returns at most `n` bytes out of
the currently buffered chunk, without waiting for further chunks — this is
exactly the short-read behaviour of TCP `recv`.  An empty stream yields an
empty byte string (peer closed). -/
def recv (n : Nat) (s : ByteStream) : List Nat × ByteStream :=
  match s with
  | [] => ([], [])
  | c :: rest =>
    let packet := c.take n
    let rem := c.drop n
    (packet, if rem.isEmpty then rest else rem :: rest)

/-- Embedding of the payload accumulation loop
(`direct_receiver.py:131-137` and `direct_receiver.py:195-202`):
`while len(data) < size: packet = recv(min(size - len(data), 4096)); if
not packet: return None; data += packet`.  The loop in the source is
bounded because every successful `recv` returns at least one byte; the
`fuel` argument makes that bound explicit (callers pass `size`, which
suffices), and exhausting it yields the same `none` outcome as a closed
stream. -/
def recvPayload (size : Nat) : Nat → List Nat → ByteStream → Option (List Nat) × ByteStream
  | 0, acc, s => if size ≤ acc.length then (some acc, s) else (none, s)
  | fuel + 1, acc, s =>
    if size ≤ acc.length then (some acc, s)
    else
      let pr := recv (min (size - acc.length) 4096) s
      if pr.1.isEmpty then (none, pr.2)
      else recvPayload size fuel (acc ++ pr.1) pr.2

/-- Outcome of reading one length-framed record from the stream, shared by
`receive_frame` (`direct_receiver.py:121-137`) and `receive_video_info`
(`direct_receiver.py:176-202`), whose header/payload code is identical. -/
inductive FramedRead where
  /-- `recv(4)` returned an empty byte string: peer closed before the header. -/
  | closed : FramedRead
  /-- `recv(4)` returned 1-3 bytes, so `struct.unpack(">L", ...)` raises. -/
  | badHeader : FramedRead
  /-- the stream closed before `size` payload bytes arrived. -/
  | shortPayload : FramedRead
  /-- a complete record: announced size and the payload bytes. -/
  | complete (size : Nat) (data : List Nat) : FramedRead
deriving DecidableEq

/-- One framed read, exactly as both receiver functions perform it: a
single `recv(4)` for the header (no accumulation loop), `struct.unpack`
of the big-endian length, then the bounded-chunk payload loop. -/
def read_framed (s : ByteStream) : FramedRead × ByteStream :=
  let hd := recv 4 s
  if hd.1.isEmpty then (.closed, hd.2)
  else if hd.1.length ≠ 4 then (.badHeader, hd.2)
  else
    let size := beUint32 hd.1
    let pr := recvPayload size size [] hd.2
    match pr.1 with
    | none => (.shortPayload, pr.2)
    | some data => (.complete size data, pr.2)

/-- The receiver's traffic statistics globals (`direct_receiver.py:31-38`).
`frame_times` records wall-clock processing durations in the source; only
how often it is extended is observable in the model, so it is kept as a
count. -/
structure RecvStats where
  bytes_received : Nat
  packets_received : Nat
  frame_sizes : List Nat
  frame_times : Nat
  frames_received : Nat
  frames_dropped : Nat
deriving DecidableEq

/-- The receiver's statistics at process start. -/
def stats0 : RecvStats := ⟨0, 0, [], 0, 0, 0⟩

/-- Embedding of `receive_frame` (`direct_receiver.py:105-163`).  The
parameter `d` stands for the composition `pickle.loads` then
`cv2.imdecode`: `none` covers both a deserialization exception and a
`None` decode result, which have the same observable effect (the frame is
dropped after the traffic counters were already updated).  Statistics
updates mirror lines 139-143 and the drop accounting lines 151-153 and
160-163; the result triple is (returned frame, remaining stream, updated
statistics). -/
def receive_frame (d : List Nat → Option Frame) (s : ByteStream) (st : RecvStats) :
    Option Frame × ByteStream × RecvStats :=
  match read_framed s with
  | (.closed, s1) => (none, s1, st)
  | (.badHeader, s1) => (none, s1, { st with frames_dropped := st.frames_dropped + 1 })
  | (.shortPayload, s1) => (none, s1, st)
  | (.complete size data, s1) =>
    let st1 := { st with
      bytes_received := st.bytes_received + data.length + 4,
      packets_received := st.packets_received + 1,
      frame_sizes := dequeAppend 30 st.frame_sizes size,
      frames_received := st.frames_received + 1 }
    match d data with
    | none => (none, s1, { st1 with frames_dropped := st1.frames_dropped + 1 })
    | some f => (some f, s1, { st1 with frame_times := st1.frame_times + 1 })

/-- The drop-rate metric (`direct_receiver.py:275`):
`frames_dropped / frames_received * 100` when any frame was received,
else `0`. -/
def dropRate (st : RecvStats) : ℚ :=
  if 0 < st.frames_received then
    (st.frames_dropped : ℚ) / (st.frames_received : ℚ) * 100
  else 0

/-- A sequence of `receive_frame` calls, one per delivered stream, folding
the statistics (the body of `buffer_frames`, `direct_receiver.py:249-259`,
restricted to its statistics effect). -/
def runReceives (d : List Nat → Option Frame) (streams : List ByteStream)
    (st : RecvStats) : RecvStats :=
  streams.foldl (fun acc s => (receive_frame d s acc).2.2) st

/-- The session information record sent before any frame
(`direct_sender.py:369-374`). -/
structure VideoInfo where
  width : Nat
  height : Nat
  fps : ℚ
  quality : Nat
deriving DecidableEq

/-- The hardcoded substitute session parameters of the receiver's
deserialization fallback (`direct_receiver.py:222-228`). -/
def fallback_video_info : VideoInfo := ⟨640, 480, 30, 90⟩

/-- Embedding of `receive_video_info` (`direct_receiver.py:165-238`).  The
parameter `loads` stands for `pickle.loads` on the handshake payload;
`none` models the caught deserialization failures (`UnpicklingError`,
`EOFError`, `AttributeError`), whereupon the source's protocol-fallback
loop returns the hardcoded default record at its first iteration
(lines 215-228).  Header/payload failures return `none` (lines 179-181,
189-191, 198-200). -/
def receive_video_info (loads : List Nat → Option VideoInfo) (s : ByteStream) :
    Option VideoInfo × ByteStream :=
  match read_framed s with
  | (.closed, s1) => (none, s1)
  | (.badHeader, s1) => (none, s1)
  | (.shortPayload, s1) => (none, s1)
  | (.complete _ data, s1) =>
    match loads data with
    | some vi => (some vi, s1)
    | none => (some fallback_video_info, s1)

/-- The receiver's handshake retry loop (`direct_receiver.py:381-392`):
`while retry_count < max_retries and not video_info`.  `attempts k` is the
stream state offered to the k-th call; the fuel is `max_retries = 3`. -/
def handshake_go (loads : List Nat → Option VideoInfo) (attempts : Nat → ByteStream) :
    Nat → Nat → Option VideoInfo
  | _, 0 => none
  | k, fuel + 1 =>
    match (receive_video_info loads (attempts k)).1 with
    | some vi => some vi
    | none => handshake_go loads attempts (k + 1) fuel

/-- The complete handshake phase with `max_retries = 3`
(`direct_receiver.py:381`). -/
def receiver_handshake (loads : List Nat → Option VideoInfo)
    (attempts : Nat → ByteStream) : Option VideoInfo :=
  handshake_go loads attempts 0 3

/-- Outcome of the receiver's startup (`direct_receiver.py:394-398`): with
no video info after the retries the process closes its sockets and calls
`exit()`; otherwise it enters the streaming phase with the obtained
record. -/
inductive ReceiverStart where
  | exited : ReceiverStart
  | streaming (vi : VideoInfo) : ReceiverStart
deriving DecidableEq

/-- The receiver's startup decision (`direct_receiver.py:394-398`). -/
def receiver_main_start (loads : List Nat → Option VideoInfo)
    (attempts : Nat → ByteStream) : ReceiverStart :=
  match receiver_handshake loads attempts with
  | none => .exited
  | some vi => .streaming vi

/-- The receive-side buffer push (`direct_receiver.py:252-256`): if the
buffer is at capacity the oldest frame is removed first, then the new
frame is appended; `popleft` on an empty deque raises (`none`), which can
only occur at capacity zero. -/
def pushDropOldest (cap : Nat) (buf : List α) (x : α) : Option (List α) :=
  if cap ≤ buf.length then
    match buf with
    | [] => none
    | _ :: rest => some (rest ++ [x])
  else some (buf ++ [x])

/-- The capture-side buffer push (`direct_sender.py:470-473`): the frame
is appended only when the buffer is below capacity, otherwise the push is
skipped. -/
def pushRejectNewest (cap : Nat) (buf : List α) (x : α) : List α :=
  if buf.length < cap then buf ++ [x] else buf

/-- Iterated `pushDropOldest` over a list of items. -/
def pushAllDrop (cap : Nat) (buf : List α) : List α → Option (List α)
  | [] => some buf
  | x :: xs =>
    match pushDropOldest cap buf x with
    | none => none
    | some b => pushAllDrop cap b xs

/-- Iterated `pushRejectNewest` over a list of items. -/
def pushAllReject (cap : Nat) (buf : List α) (xs : List α) : List α :=
  xs.foldl (pushRejectNewest cap) buf

/-- The buffer pop used by both paced consumers (`direct_receiver.py:451-453`
and `direct_sender.py:168-170`): `if frame_buffer: frame_buffer.popleft()`. -/
def popFrame (buf : List α) : Option α × List α :=
  match buf with
  | [] => (none, [])
  | f :: rest => (some f, rest)

/-- The last `n` elements of a list, in order. -/
def lastN (n : Nat) (l : List α) : List α := l.drop (l.length - n)

/-- The sender's traffic statistics globals (`direct_sender.py:31-34`);
`frame_times` holds wall-clock durations, modelled as opaque rationals. -/
structure SendStats where
  bytes_sent : Nat
  packets_sent : Nat
  frame_sizes : List Nat
  frame_times : List ℚ
deriving DecidableEq

/-- Embedding of `send_frame` (`direct_sender.py:93-143`).  `encodeOk`
models the `cv2.imencode` result flag (line 114: on failure the function
returns `False` before any statistic is touched); `data` is the
serialized payload `pickle.dumps(encoded_frame)`; `sendOk` models whether
the two `sendall` calls succeed; `elapsed` is the measured processing
time.  `frame_sizes` is extended at line 123, before the `try` block, so
it grows even when the transmission then fails; a payload of `2^32` bytes
or more would make `struct.pack(">L", size)` raise inside the `try`,
which lands in the same `False` branch. -/
def send_frame (st : SendStats) (encodeOk : Bool) (data : List Nat) (sendOk : Bool)
    (elapsed : ℚ) : Bool × SendStats :=
  if encodeOk = false then (false, st)
  else
    let size := data.length
    let st1 := { st with frame_sizes := dequeAppend 30 st.frame_sizes size }
    if sendOk = true ∧ size < 2 ^ 32 then
      (true, { st1 with
        bytes_sent := st1.bytes_sent + size + 4,
        packets_sent := st1.packets_sent + 1,
        frame_times := dequeAppend 30 st1.frame_times elapsed })
    else (false, st1)

/-- The bytes that a successful transmission writes for a payload
(`direct_sender.py:127-130` and the handshake at lines 383-389): the
4-byte big-endian length followed by the payload. -/
def frameWire (data : List Nat) : List Nat := beBytes4 data.length ++ data

/-- The environment one iteration of the transmit pump observes
(`send_frames_thread`, `direct_sender.py:159-207`): the buffer pop result,
whether `send_frame` succeeds, and whether the reconnect `try` block
(close, connect, resend handshake) completes without an exception. -/
structure CycleEnv where
  popped : Option Frame
  sendOk : Bool
  reconnectOk : Bool

/-- What one transmit-pump iteration does (`direct_sender.py:165-207`). -/
inductive CycleOutcome where
  /-- the buffer was empty: short sleep, no transmission. -/
  | idle : CycleOutcome
  /-- the frame was sent. -/
  | sent : CycleOutcome
  /-- the send failed; the pump closed the socket, connected to the given
  peer address and wrote the given handshake bytes on the new connection. -/
  | reconnected (addr : Nat) (handshakeBytes : List Nat) : CycleOutcome
  /-- the send failed and the reconnect attempt also failed; the pump
  slept for the given number of seconds before the next cycle. -/
  | backoff (seconds : ℚ) : CycleOutcome
deriving DecidableEq

/-- One iteration of the transmit pump (`direct_sender.py:165-207`):
pop, send, and on failure the reconnect handling of lines 176-198 —
close the socket, reconnect to the same `(receiver_ip, receiver_port)`,
resend the framed `SessionInfo` record (lines 185-193); if that `try`
fails, `time.sleep(1.0)` (line 198). -/
def sendCycle (addr : Nat) (infoBytes : List Nat) (e : CycleEnv) : CycleOutcome :=
  match e.popped with
  | none => .idle
  | some _ =>
    if e.sendOk then .sent
    else if e.reconnectOk then .reconnected addr (frameWire infoBytes)
    else .backoff 1

/-- The transmit pump run over a schedule of iteration environments
(`while running`, `direct_sender.py:159`): the pump performs one cycle per
environment and never terminates on its own — the schedule ends only when
the process is told to stop. -/
def sendPump (addr : Nat) (infoBytes : List Nat) (envs : List CycleEnv) :
    List CycleOutcome :=
  envs.map (sendCycle addr infoBytes)

/-- The capture source (`cv2.VideoCapture`): a frame position and the
underlying frame sequence. -/
structure CapState where
  pos : Nat
  source : List Frame
deriving DecidableEq

/-- Embedding of `cap.read()`: at a valid position it yields the frame and
advances; past the end it returns `ret = False` and leaves the position. -/
def capRead (cs : CapState) : Option Frame × CapState :=
  if h : cs.pos < cs.source.length then
    (some (cs.source.get ⟨cs.pos, h⟩), { cs with pos := cs.pos + 1 })
  else (none, cs)

/-- One read step of the capture loop (`direct_sender.py:439-444`): on
`ret = False` the source is rewound with `cap.set(CAP_PROP_POS_FRAMES, 0)`
and the loop continues (no frame this iteration); otherwise the frame is
returned. -/
def readStep (cs : CapState) : CapState × Option Frame :=
  match capRead cs with
  | (none, cs') => ({ cs' with pos := 0 }, none)
  | (some f, cs') => (cs', some f)

/-- The capture read rate (`direct_sender.py:427`):
`read_fps = min(target_fps * 1.1, video_fps)`, with the float literal
`1.1` modelled as the exact rational `11/10`. -/
def read_fps (target_fps video_fps : ℚ) : ℚ :=
  min (target_fps * (11 / 10)) video_fps

/-- A concrete decode function for witnesses: payload `[9]` is
undecodable, everything else decodes to itself. -/
def dWit : List Nat → Option Frame :=
  fun p => if p = [9] then none else some p

lemma isEmpty_eq_true_iff {α : Type} (l : List α) : l.isEmpty = true ↔ l = [] := by
  cases l <;> simp

lemma take_append_of_le {α : Type} (n : Nat) (l₁ l₂ : List α) (h : n ≤ l₁.length) :
    (l₁ ++ l₂).take n = l₁.take n := by
  induction l₁ generalizing n with
  | nil =>
    have : n = 0 := by simpa using h
    simp [this]
  | cons a t ih =>
    cases n with
    | zero => simp
    | succ m => simp [ih m (by simpa using h)]

lemma drop_append_of_le {α : Type} (n : Nat) (l₁ l₂ : List α) (h : n ≤ l₁.length) :
    (l₁ ++ l₂).drop n = l₁.drop n ++ l₂ := by
  induction l₁ generalizing n with
  | nil =>
    have : n = 0 := by simpa using h
    simp [this]
  | cons a t ih =>
    cases n with
    | zero => simp
    | succ m => simp [ih m (by simpa using h)]

lemma beUint32_beBytes4 (n : Nat) (h : n < 2 ^ 32) : beUint32 (beBytes4 n) = n := by
  simp only [beUint32, beBytes4, List.foldl]
  omega

lemma beBytes4_length (n : Nat) : (beBytes4 n).length = 4 := rfl

/-- Completeness of the payload loop: over a stream of nonempty chunks
holding at least `size` pending bytes, and with fuel covering the missing
bytes, the loop returns exactly the first `size` bytes of `acc` followed
by the stream, and leaves exactly the remaining bytes in the stream. -/
lemma recvPayload_complete :
    ∀ (fuel size : Nat) (acc : List Nat) (s : ByteStream),
      (∀ c ∈ s, c ≠ []) → acc.length ≤ size → size ≤ acc.length + fuel →
      size ≤ (acc ++ s.flatten).length →
      ∃ s', recvPayload size fuel acc s = (some ((acc ++ s.flatten).take size), s') ∧
            s'.flatten = (acc ++ s.flatten).drop size ∧ (∀ c ∈ s', c ≠ []) := by
  intro fuel
  induction fuel with
  | zero =>
    intro size acc s hne hle hfuel _
    have hsz : size = acc.length := by omega
    refine ⟨s, ?_, ?_, hne⟩
    · simp [recvPayload, hsz, take_append_of_le _ _ _ (le_refl acc.length),
        List.take_length]
    · simp [hsz, drop_append_of_le _ _ _ (le_refl acc.length), List.drop_length]
  | succ fuel ih =>
    intro size acc s hne hle hfuel htot
    by_cases hstop : size ≤ acc.length
    · have hsz : size = acc.length := by omega
      refine ⟨s, ?_, ?_, hne⟩
      · simp [recvPayload, hsz, take_append_of_le _ _ _ (le_refl acc.length),
          List.take_length]
      · simp [hsz, drop_append_of_le _ _ _ (le_refl acc.length), List.drop_length]
    · have hlt : acc.length < size := by omega
      match s, hne with
      | [], hne =>
        exfalso
        simp at htot
        omega
      | c :: rest, hne =>
        have hcne : c ≠ [] := hne c (by simp)
        have hn1 : 1 ≤ min (size - acc.length) 4096 := by
          have : 1 ≤ size - acc.length := by omega
          exact le_min this (by omega)
        set n := min (size - acc.length) 4096 with hn
        have hnle : n ≤ size - acc.length := min_le_left _ _
        have hpack : (c.take n).isEmpty = false := by
          match c, hcne with
          | y :: ys, _ =>
            match n, hn1 with
            | m + 1, _ => simp
        have hrecv : recv n (c :: rest) =
            (c.take n, if (c.drop n).isEmpty then rest else c.drop n :: rest) := rfl
        have hjoin1 : (if (c.drop n).isEmpty then rest
            else c.drop n :: rest).flatten = c.drop n ++ rest.flatten := by
          by_cases hdn : (c.drop n).isEmpty
          · have : c.drop n = [] := (isEmpty_eq_true_iff _).1 hdn
            simp [hdn, this]
          · simp [hdn]
        have hne1 : ∀ ch ∈ (if (c.drop n).isEmpty then rest
            else c.drop n :: rest), ch ≠ [] := by
          by_cases hdn : (c.drop n).isEmpty
          · intro ch hch
            rw [if_pos hdn] at hch
            exact hne ch (by simp [hch])
          · intro ch hch
            rw [if_neg hdn, List.mem_cons] at hch
            rcases hch with h1 | h2
            · subst h1
              intro hx
              rw [hx] at hdn
              simp at hdn
            · exact hne ch (by simp [h2])
        have hcommon : (acc ++ c.take n) ++ (if (c.drop n).isEmpty then rest
            else c.drop n :: rest).flatten = acc ++ (c :: rest).flatten := by
          rw [hjoin1, List.flatten_cons, List.append_assoc,
            ← List.append_assoc (c.take n), List.take_append_drop]
        have hlen_take : (c.take n).length ≤ n := by
          simp [List.length_take]
        have hlen_take1 : 1 ≤ (c.take n).length := by
          match c, hcne with
          | y :: ys, _ =>
            match n, hn1 with
            | m + 1, _ =>
              simp only [List.length_take, List.take]
              simp
        have hIH := ih size (acc ++ c.take n)
          (if (c.drop n).isEmpty then rest else c.drop n :: rest) hne1
          (by simp only [List.length_append]; omega)
          (by simp only [List.length_append]; omega)
          (by
            have h2 := congrArg List.length hcommon
            simp only [List.length_append] at h2 htot ⊢
            omega)
        obtain ⟨s', heq, hjoin', hne'⟩ := hIH
        refine ⟨s', ?_, ?_, hne'⟩
        · show recvPayload size (fuel + 1) acc (c :: rest) = _
          rw [recvPayload]
          rw [if_neg hstop]
          simp only [← hn, hrecv, hpack, Bool.false_eq_true, if_false]
          rw [heq, ← hcommon]
        · rw [hjoin', ← hcommon]

/-- Completeness of one framed read: when the stream delivers a well-formed
record `beBytes4 L ++ payload` (followed by anything), split into nonempty
chunks the first of which carries the whole 4-byte header, the read yields
`complete L payload` and consumes exactly `L + 4` bytes. -/
lemma read_framed_complete (L : Nat) (payload extra c : List Nat) (cs : ByteStream)
    (hL : L < 2 ^ 32) (hp : payload.length = L) (hc4 : 4 ≤ c.length)
    (hne : ∀ ch ∈ c :: cs, ch ≠ [])
    (hflat : (c :: cs).flatten = beBytes4 L ++ (payload ++ extra)) :
    ∃ s', read_framed (c :: cs) = (.complete L payload, s') ∧
          s'.flatten = extra ∧ (∀ ch ∈ s', ch ≠ []) := by
  have hhead : c.take 4 = beBytes4 L := by
    have h1 : (c ++ cs.flatten).take 4 = c.take 4 :=
      take_append_of_le 4 c cs.flatten hc4
    have h2 : (c :: cs).flatten = c ++ cs.flatten := List.flatten_cons ..
    have h3 : (beBytes4 L ++ (payload ++ extra)).take 4 = beBytes4 L := by
      have := take_append_of_le 4 (beBytes4 L) (payload ++ extra) (by simp [beBytes4])
      simpa [beBytes4] using this
    rw [← h1, ← h2, hflat, h3]
  have hhead_len : (c.take 4).length = 4 := by
    simp [List.length_take]
    omega
  have hs1flat : (if (c.drop 4).isEmpty then cs else c.drop 4 :: cs).flatten
      = payload ++ extra := by
    have h2 : (c :: cs).flatten = c ++ cs.flatten := List.flatten_cons ..
    have hdrop : (c ++ cs.flatten).drop 4 = c.drop 4 ++ cs.flatten :=
      drop_append_of_le 4 c cs.flatten hc4
    have hdrop2 : (beBytes4 L ++ (payload ++ extra)).drop 4 = payload ++ extra := by
      have := drop_append_of_le 4 (beBytes4 L) (payload ++ extra) (by simp [beBytes4])
      simpa [beBytes4] using this
    have hagree : c.drop 4 ++ cs.flatten = payload ++ extra := by
      rw [← hdrop, ← h2, hflat, hdrop2]
    by_cases hdn : (c.drop 4).isEmpty
    · have : c.drop 4 = [] := (isEmpty_eq_true_iff _).1 hdn
      rw [if_pos hdn]
      rw [this] at hagree
      simpa using hagree
    · rw [if_neg hdn, List.flatten_cons]
      exact hagree
  have hne1 : ∀ ch ∈ (if (c.drop 4).isEmpty then cs else c.drop 4 :: cs), ch ≠ [] := by
    by_cases hdn : (c.drop 4).isEmpty
    · intro ch hch
      rw [if_pos hdn] at hch
      exact hne ch (by simp [hch])
    · intro ch hch
      rw [if_neg hdn, List.mem_cons] at hch
      rcases hch with h1 | h2
      · subst h1
        intro hx
        rw [hx] at hdn
        simp at hdn
      · exact hne ch (by simp [h2])
  have hpay := recvPayload_complete L L []
    (if (c.drop 4).isEmpty then cs else c.drop 4 :: cs) hne1
    (by simp) (by simp)
    (by
      rw [List.nil_append, hs1flat]
      simp only [List.length_append]
      omega)
  rw [hs1flat] at hpay
  obtain ⟨s', heq, hflat', hne'⟩ := hpay
  have htake : ([] ++ (payload ++ extra) : List Nat).take L = payload := by
    have := take_append_of_le L payload extra (by omega)
    simp only [List.nil_append]
    rw [this, ← hp, List.take_length]
  have hdrop' : ([] ++ (payload ++ extra) : List Nat).drop L = extra := by
    have := drop_append_of_le L payload extra (by omega)
    simp only [List.nil_append]
    rw [this, ← hp, List.drop_length]
    simp
  refine ⟨s', ?_, ?_, hne'⟩
  · show read_framed (c :: cs) = _
    have hrecv : recv 4 (c :: cs) =
        (c.take 4, if (c.drop 4).isEmpty then cs else c.drop 4 :: cs) := rfl
    simp only [read_framed, hrecv, hhead]
    rw [if_neg (by simp [beBytes4])]
    rw [if_neg (by simp [beBytes4])]
    rw [beUint32_beBytes4 L hL, heq, htake]
  · rw [hflat', hdrop']

/-- A complete single-chunk delivery of one framed payload: the effect of
`receive_frame` on every statistic, for both decode outcomes. -/
lemma receive_frame_whole (d : List Nat → Option Frame) (p : List Nat)
    (hp : p.length < 2 ^ 32) (st : RecvStats) :
    receive_frame d [frameWire p] st =
      (d p, [],
        match d p with
        | none =>
          { st with
            bytes_received := st.bytes_received + p.length + 4,
            packets_received := st.packets_received + 1,
            frame_sizes := dequeAppend 30 st.frame_sizes p.length,
            frames_received := st.frames_received + 1,
            frames_dropped := st.frames_dropped + 1 }
        | some _ =>
          { st with
            bytes_received := st.bytes_received + p.length + 4,
            packets_received := st.packets_received + 1,
            frame_sizes := dequeAppend 30 st.frame_sizes p.length,
            frames_received := st.frames_received + 1,
            frame_times := st.frame_times + 1 }) := by
  have hrf := read_framed_complete p.length p [] (frameWire p) [] hp rfl
    (by simp [frameWire, beBytes4]) (by simp [frameWire, beBytes4])
    (by simp [frameWire])
  obtain ⟨s', heq, hflat', hne'⟩ := hrf
  have hs' : s' = [] := by
    cases s' with
    | nil => rfl
    | cons a t =>
      exfalso
      have ha : a ≠ [] := hne' a (by simp)
      have : (a :: t).flatten = a ++ t.flatten := List.flatten_cons ..
      rw [this] at hflat'
      match a, ha with
      | x :: xs, _ => simp at hflat'
  subst hs'
  rw [receive_frame, heq]
  cases hdp : d p <;> simp [hdp]

lemma lastN_cons_of_le {α : Type} (n : Nat) (a : α) (l : List α) (h : n ≤ l.length) :
    lastN n (a :: l) = lastN n l := by
  simp only [lastN, List.length_cons]
  rw [show l.length + 1 - n = (l.length - n) + 1 by omega, List.drop_succ_cons]

lemma lastN_of_length_le {α : Type} (n : Nat) (l : List α) (h : l.length ≤ n) :
    lastN n l = l := by
  simp only [lastN]
  rw [show l.length - n = 0 by omega, List.drop_zero]

/-- Iterated drop-oldest pushes from a buffer within capacity end at the
last `cap` elements of everything ever pushed (buffer content included),
in order. -/
lemma pushAllDrop_eq {α : Type} (cap : Nat) (hcap : 0 < cap) :
    ∀ (xs buf : List α), buf.length ≤ cap →
      pushAllDrop cap buf xs = some (lastN cap (buf ++ xs)) := by
  intro xs
  induction xs with
  | nil =>
    intro buf hb
    simp [pushAllDrop, lastN_of_length_le cap buf (by simpa using hb)]
  | cons x xs ih =>
    intro buf hb
    by_cases hfull : cap ≤ buf.length
    · cases buf with
      | nil =>
        exfalso
        simp only [List.length_nil] at hfull
        omega
      | cons b bs =>
        have hstep : pushAllDrop cap (b :: bs) (x :: xs)
            = pushAllDrop cap (bs ++ [x]) xs := by
          rw [pushAllDrop, pushDropOldest.eq_def, if_pos hfull]
        have hlen : bs.length + 1 = cap := by
          simp only [List.length_cons] at hfull hb
          omega
        rw [hstep, ih (bs ++ [x]) (by simp only [List.length_append]; simp; omega)]
        congr 1
        have h1 : (b :: bs) ++ x :: xs = b :: (bs ++ [x] ++ xs) := by simp
        rw [h1, lastN_cons_of_le]
        simp only [List.length_append, List.length_cons]
        simp
        omega
    · have hstep : pushAllDrop cap buf (x :: xs)
          = pushAllDrop cap (buf ++ [x]) xs := by
        rw [pushAllDrop, pushDropOldest.eq_def, if_neg hfull]
      rw [hstep, ih (buf ++ [x]) (by simp; omega)]
      congr 1
      simp [List.append_assoc]

/-- Iterated reject-newest pushes fill the buffer up to capacity with the
earliest pushed items and ignore the rest. -/
lemma pushAllReject_eq {α : Type} (cap : Nat) :
    ∀ (xs buf : List α), buf.length ≤ cap →
      pushAllReject cap buf xs = buf ++ xs.take (cap - buf.length) := by
  intro xs
  induction xs with
  | nil =>
    intro buf hb
    simp [pushAllReject]
  | cons x xs ih =>
    intro buf hb
    by_cases hfull : buf.length < cap
    · have hstep : pushRejectNewest cap buf x = buf ++ [x] := by
        simp [pushRejectNewest, hfull]
      show pushAllReject cap (pushRejectNewest cap buf x) xs = _
      rw [hstep, ih (buf ++ [x]) (by simp; omega)]
      rw [show cap - buf.length = (cap - (buf ++ [x]).length) + 1 by simp; omega]
      simp [List.append_assoc]
    · have hstep : pushRejectNewest cap buf x = buf := by
        simp [pushRejectNewest, hfull]
      show pushAllReject cap (pushRejectNewest cap buf x) xs = _
      rw [hstep, ih buf hb]
      rw [show cap - buf.length = 0 by omega]
      simp

/-- Counting effect of a run of complete single-chunk frame deliveries:
every payload counts into `frames_received`, and exactly the undecodable
ones count into `frames_dropped`. -/
lemma runReceives_counts (d : List Nat → Option Frame) :
    ∀ (ps : List (List Nat)) (st : RecvStats),
      (∀ p ∈ ps, p.length < 2 ^ 32) →
      (runReceives d (ps.map fun p => [frameWire p]) st).frames_received
          = st.frames_received + ps.length ∧
      (runReceives d (ps.map fun p => [frameWire p]) st).frames_dropped
          = st.frames_dropped + (ps.filter fun p => (d p).isNone).length := by
  intro ps
  induction ps with
  | nil =>
    intro st _
    simp [runReceives]
  | cons p ps ih =>
    intro st hlt
    have hp : p.length < 2 ^ 32 := hlt p (by simp)
    have hstep : runReceives d ((p :: ps).map fun q => [frameWire q]) st
        = runReceives d (ps.map fun q => [frameWire q])
            ((receive_frame d [frameWire p] st).2.2) := rfl
    rw [hstep]
    have hih := ih ((receive_frame d [frameWire p] st).2.2)
      (fun q hq => hlt q (by simp [hq]))
    rw [receive_frame_whole d p hp st] at hih ⊢
    cases hdp : d p with
    | none =>
      rw [hdp] at hih
      refine ⟨?_, ?_⟩
      · rw [hih.1]
        simp
        omega
      · rw [hih.2]
        simp [List.filter, hdp]
        omega
    | some f =>
      rw [hdp] at hih
      refine ⟨?_, ?_⟩
      · rw [hih.1]
        simp
        omega
      · rw [hih.2]
        simp [List.filter, hdp]

/-- If every attempt within the fuel budget fails at the receive level,
the handshake retry loop ends with no video information. -/
lemma handshake_go_all_none (loads : List Nat → Option VideoInfo)
    (attempts : Nat → ByteStream) :
    ∀ (fuel k : Nat),
      (∀ j, j < fuel → (receive_video_info loads (attempts (k + j))).1 = none) →
      handshake_go loads attempts k fuel = none := by
  intro fuel
  induction fuel with
  | zero => intro k _; rfl
  | succ fuel ih =>
    intro k h
    have h0 : (receive_video_info loads (attempts k)).1 = none := by
      simpa using h 0 (by omega)
    rw [handshake_go, h0]
    exact ih (k + 1) (fun j hj => by
      have hx := h (j + 1) (by omega)
      rw [show k + (j + 1) = k + 1 + j by omega] at hx
      exact hx)

/-
Claim theorems.  Each claim of the specification gets exactly one theorem
below, stated over the embedded source functions.
-/

/-- C1 (counterexample): the same framed message, delivered in 1-byte
chunks versus 4096-byte chunks, does NOT decode identically: the header is
read with a single `recv(4)`, so a first chunk of one byte makes
`struct.unpack` fail and the frame is dropped, while whole-message
delivery decodes the payload. -/
theorem header_fragmentation_mismatch :
    ([[0], [0], [0], [1], [77]] : ByteStream).flatten = frameWire [77] ∧
    ([[0, 0, 0, 1, 77]] : ByteStream).flatten = frameWire [77] ∧
    (receive_frame some [[0], [0], [0], [1], [77]] stats0).1 = none ∧
    (receive_frame some [[0, 0, 0, 1, 77]] stats0).1 = some [77] ∧
    (receive_frame some [[0], [0], [0], [1], [77]] stats0).2.2.frames_dropped = 1 ∧
    (receive_frame some [[0], [0], [0], [1], [77]] stats0).2.2.frames_received = 0 := by
  decide

/-- C1 (amended): the receiver reads the length header with a single
`recv` of up to 4 bytes, so decoding succeeds exactly when the first
delivered chunk already carries the whole 4-byte header; under that
condition the payload is read to exactly the announced length in bounded
chunks, and every admissible fragmentation of the payload (1-byte chunks,
4096-byte chunks, or any other split into nonempty chunks) decodes to the
same message and consumes exactly `L + 4` bytes. -/
theorem receive_frame_fragmented (d : List Nat → Option Frame) (L : Nat)
    (payload extra c : List Nat) (cs : ByteStream) (st : RecvStats)
    (hL : L < 2 ^ 32) (hp : payload.length = L) (hc4 : 4 ≤ c.length)
    (hne : ∀ ch ∈ c :: cs, ch ≠ [])
    (hflat : (c :: cs).flatten = beBytes4 L ++ (payload ++ extra)) :
    (receive_frame d (c :: cs) st).1 = d payload ∧
    (receive_frame d (c :: cs) st).2.2.frames_received = st.frames_received + 1 ∧
    (receive_frame d (c :: cs) st).2.2.bytes_received = st.bytes_received + L + 4 ∧
    (receive_frame d (c :: cs) st).2.1.flatten = extra := by
  subst hp
  obtain ⟨s', heq, hflat', hne'⟩ :=
    read_framed_complete payload.length payload extra c cs hL rfl hc4 hne hflat
  refine ⟨?_, ?_, ?_, ?_⟩ <;>
    simp only [receive_frame, heq] <;>
    cases hdp : d payload <;>
    simp [hdp, hflat']

theorem receive_frame_fragmented_witness :
    (receive_frame some [[0, 0, 0, 1], [77]] stats0).1 = some [77] ∧
    (receive_frame some [[0, 0, 0, 1], [77]] stats0).2.2.frames_received
      = stats0.frames_received + 1 ∧
    (receive_frame some [[0, 0, 0, 1], [77]] stats0).2.2.bytes_received
      = stats0.bytes_received + 1 + 4 ∧
    (receive_frame some [[0, 0, 0, 1], [77]] stats0).2.1.flatten = [] :=
  receive_frame_fragmented some 1 [77] [] [0, 0, 0, 1] [[77]] stats0
    (by decide) rfl (by decide) (by decide) (by decide)

/-- C2: a transmitted frame of payload length `L` is exactly a 4-byte
big-endian length word holding `L` followed by the `L` payload bytes, and
a successfully received frame consumes exactly `L + 4` bytes from the
stream and adds exactly `L + 4` to `bytes_received`. -/
theorem frame_wire_format_and_consumption (payload : List Nat) (L : Nat)
    (hp : payload.length = L) (hL : L < 2 ^ 32)
    (d : List Nat → Option Frame) (st : RecvStats) :
    frameWire payload = beBytes4 L ++ payload ∧
    (beBytes4 L).length = 4 ∧
    beUint32 (beBytes4 L) = L ∧
    (frameWire payload).length = L + 4 ∧
    (receive_frame d [frameWire payload] st).2.2.bytes_received
      = st.bytes_received + L + 4 ∧
    (receive_frame d [frameWire payload] st).2.1 = [] := by
  subst hp
  refine ⟨rfl, rfl, beUint32_beBytes4 _ hL, ?_, ?_, ?_⟩
  · simp [frameWire, beBytes4]
  · rw [receive_frame_whole d payload hL st]
    cases hdp : d payload <;> simp [hdp]
  · rw [receive_frame_whole d payload hL st]

theorem frame_wire_format_and_consumption_witness :
    frameWire [5, 6, 7] = beBytes4 3 ++ [5, 6, 7] ∧
    (beBytes4 3).length = 4 ∧
    beUint32 (beBytes4 3) = 3 ∧
    (frameWire [5, 6, 7]).length = 3 + 4 ∧
    (receive_frame some [frameWire [5, 6, 7]] stats0).2.2.bytes_received
      = stats0.bytes_received + 3 + 4 ∧
    (receive_frame some [frameWire [5, 6, 7]] stats0).2.1 = [] :=
  frame_wire_format_and_consumption [5, 6, 7] 3 rfl (by decide) some stats0

/-- C3: pushing `cap + 1` items into an empty buffer under the receiver's
drop-oldest policy leaves exactly the most recent `cap` items in their
original relative order; under the capture side's reject-newest policy the
first `cap` items fill the buffer and the `(cap + 1)`-th push (indeed any
further push) is a no-op. -/
theorem buffer_overflow_policies {α : Type} (cap : Nat) (hcap : 0 < cap)
    (xs : List α) (hx : xs.length = cap + 1) (y : α) :
    pushAllDrop cap ([] : List α) xs = some (xs.drop 1) ∧
    (xs.drop 1).length = cap ∧
    pushAllReject cap ([] : List α) xs = xs.take cap ∧
    pushRejectNewest cap (xs.take cap) y = xs.take cap := by
  refine ⟨?_, ?_, ?_, ?_⟩
  · rw [pushAllDrop_eq cap hcap xs [] (by simp)]
    simp [lastN, hx]
  · simp [hx]
  · rw [pushAllReject_eq cap xs [] (by simp)]
    simp
  · have hlen : (xs.take cap).length = cap := by
      simp [List.length_take, hx]
    simp [pushRejectNewest, hlen]

theorem buffer_overflow_policies_witness :
    pushAllDrop 2 ([] : List Nat) [1, 2, 3] = some ([1, 2, 3].drop 1) ∧
    (([1, 2, 3] : List Nat).drop 1).length = 2 ∧
    pushAllReject 2 ([] : List Nat) [1, 2, 3] = [1, 2, 3].take 2 ∧
    pushRejectNewest 2 (([1, 2, 3] : List Nat).take 2) 9 = [1, 2, 3].take 2 :=
  buffer_overflow_policies 2 (by decide) [1, 2, 3] (by decide) 9

/-- C4 (counterexample): a completely received but unparseable handshake
record is not fatal — the receiver substitutes the hardcoded default
session parameters and proceeds to streaming instead of exiting. -/
theorem handshake_fallback_not_fatal :
    receiver_main_start (fun _ => none) (fun _ => [[0, 0, 0, 1, 5]])
      = ReceiverStart.streaming fallback_video_info ∧
    receiver_main_start (fun _ => none) (fun _ => [[0, 0, 0, 1, 5]])
      ≠ ReceiverStart.exited := by
  decide

/-- C4 (amended): if the handshake record is never received at the
framing level (peer closed, short header, or incomplete payload) on each
of the 3 retries, the receiver exits; but a fully received record whose
payload fails deserialization is silently replaced by the hardcoded
default session parameters rather than treated as a handshake failure. -/
theorem handshake_exit_or_fallback :
    (∀ (loads : List Nat → Option VideoInfo) (attempts : Nat → ByteStream),
      (∀ k, k < 3 → (receive_video_info loads (attempts k)).1 = none) →
      receiver_main_start loads attempts = ReceiverStart.exited) ∧
    (∀ (loads : List Nat → Option VideoInfo) (c : List Nat) (cs : ByteStream)
       (data extra : List Nat),
      data.length < 2 ^ 32 → 4 ≤ c.length → (∀ ch ∈ c :: cs, ch ≠ []) →
      (c :: cs).flatten = beBytes4 data.length ++ (data ++ extra) →
      loads data = none →
      (receive_video_info loads (c :: cs)).1 = some fallback_video_info) := by
  constructor
  · intro loads attempts h
    rw [receiver_main_start, receiver_handshake,
      handshake_go_all_none loads attempts 3 0
        (fun j hj => by simpa using h j (by omega))]
  · intro loads c cs data extra hlen hc4 hne hflat hload
    obtain ⟨s', heq, _, _⟩ :=
      read_framed_complete data.length data extra c cs hlen rfl hc4 hne hflat
    simp only [receive_video_info, heq, hload]

theorem handshake_exit_or_fallback_witness :
    (receive_video_info (fun _ => none) [[0, 0, 0, 1, 5]]).1
      = some fallback_video_info :=
  handshake_exit_or_fallback.2 (fun _ => none) [0, 0, 0, 1, 5] [] [5] []
    (by decide) (by decide) (by decide) (by decide) rfl

/-- C5: if `K` of `N` completely received payloads fail image decoding,
the run counts `frames_received = N` and `frames_dropped = K`, and the
reported drop rate is exactly `K / N * 100` (exact in `ℚ`, hence within
any floating-point tolerance). -/
theorem drop_rate_metric (d : List Nat → Option Frame) (ps : List (List Nat))
    (N K : Nat) (hne : ps ≠ []) (hlt : ∀ p ∈ ps, p.length < 2 ^ 32)
    (hN : N = ps.length) (hK : K = (ps.filter fun p => (d p).isNone).length) :
    (runReceives d (ps.map fun p => [frameWire p]) stats0).frames_received = N ∧
    (runReceives d (ps.map fun p => [frameWire p]) stats0).frames_dropped = K ∧
    dropRate (runReceives d (ps.map fun p => [frameWire p]) stats0)
      = (K : ℚ) / (N : ℚ) * 100 := by
  obtain ⟨h1, h2⟩ := runReceives_counts d ps stats0 hlt
  have hr : (runReceives d (ps.map fun p => [frameWire p]) stats0).frames_received
      = N := by
    rw [h1, hN]
    simp [stats0]
  have hd : (runReceives d (ps.map fun p => [frameWire p]) stats0).frames_dropped
      = K := by
    rw [h2, hK]
    simp [stats0]
  have hNpos : 0 < N := by
    subst hN
    cases ps with
    | nil => exact absurd rfl hne
    | cons a t => simp
  refine ⟨hr, hd, ?_⟩
  rw [dropRate, hr, hd, if_pos hNpos]

theorem drop_rate_metric_witness :
    (runReceives dWit ([[1], [9]].map fun p => [frameWire p]) stats0).frames_received
      = 2 ∧
    (runReceives dWit ([[1], [9]].map fun p => [frameWire p]) stats0).frames_dropped
      = 1 ∧
    dropRate (runReceives dWit ([[1], [9]].map fun p => [frameWire p]) stats0)
      = ((1 : Nat) : ℚ) / ((2 : Nat) : ℚ) * 100 :=
  drop_rate_metric dWit [[1], [9]] 2 1 (by decide) (by decide) (by decide) (by decide)

/-- C6: whenever a transmit cycle pops a frame and the send fails, the
pump closes the socket and reconnects to the same peer address, resending
the framed session record on the new connection; if the reconnect attempt
itself fails it sleeps for exactly 1 second instead; and the pump keeps
producing one outcome per scheduled cycle — it never terminates on a
failure, only when the schedule (the `running` flag) ends. -/
theorem transmit_failure_reconnect (addr : Nat) (infoBytes : List Nat)
    (envs : List CycleEnv) (i : Nat) (e : CycleEnv) (f : Frame)
    (he : envs[i]? = some e) (hf : e.popped = some f) (hs : e.sendOk = false) :
    (sendPump addr infoBytes envs).length = envs.length ∧
    (sendPump addr infoBytes envs)[i]? =
      some (if e.reconnectOk then
              CycleOutcome.reconnected addr (beBytes4 infoBytes.length ++ infoBytes)
            else CycleOutcome.backoff 1) := by
  constructor
  · simp [sendPump]
  · rw [sendPump, List.getElem?_map, he]
    simp [sendCycle, hf, hs, frameWire]

theorem transmit_failure_reconnect_witness :
    (sendPump 7 [1, 2] [⟨some [3], false, true⟩]).length
      = [(⟨some [3], false, true⟩ : CycleEnv)].length ∧
    (sendPump 7 [1, 2] [⟨some [3], false, true⟩])[0]? =
      some (if (⟨some [3], false, true⟩ : CycleEnv).reconnectOk then
              CycleOutcome.reconnected 7 (beBytes4 ([1, 2] : List Nat).length ++ [1, 2])
            else CycleOutcome.backoff 1) :=
  transmit_failure_reconnect 7 [1, 2] [⟨some [3], false, true⟩] 0
    ⟨some [3], false, true⟩ [3] rfl rfl rfl

/-- C7: the frame buffer length never exceeds the capacity: from any state
within capacity, a drop-oldest push (when it returns), a reject-newest
push and a pop all stay within capacity. -/
theorem buffer_length_invariant {α : Type} (cap : Nat) (buf : List α) (x : α)
    (h : buf.length ≤ cap) :
    (∀ b, pushDropOldest cap buf x = some b → b.length ≤ cap) ∧
    (pushRejectNewest cap buf x).length ≤ cap ∧
    ((popFrame buf).2).length ≤ cap := by
  refine ⟨?_, ?_, ?_⟩
  · intro b hb
    by_cases hfull : cap ≤ buf.length
    · cases buf with
      | nil =>
        rw [pushDropOldest.eq_def, if_pos hfull] at hb
        simp at hb
      | cons a rest =>
        rw [pushDropOldest.eq_def, if_pos hfull] at hb
        simp only [Option.some.injEq] at hb
        subst hb
        simp only [List.length_append, List.length_cons] at h ⊢
        simp at h ⊢
        omega
    · rw [pushDropOldest.eq_def, if_neg hfull] at hb
      simp only [Option.some.injEq] at hb
      subst hb
      simp only [List.length_append, List.length_cons]
      simp
      omega
  · by_cases hlt : buf.length < cap
    · simp [pushRejectNewest, hlt]
      omega
    · simp [pushRejectNewest, hlt]
      omega
  · cases buf with
    | nil => simp [popFrame]
    | cons a rest =>
      simp only [popFrame]
      simp only [List.length_cons] at h
      omega

theorem buffer_length_invariant_witness :
    (∀ b, pushDropOldest 2 [5, 6] 9 = some b → b.length ≤ 2) ∧
    (pushRejectNewest 2 ([5, 6] : List Nat) 9).length ≤ 2 ∧
    ((popFrame ([5, 6] : List Nat)).2).length ≤ 2 :=
  buffer_length_invariant 2 [5, 6] 9 (by decide)

/-- C8: the capture pump's read rate is `min(target_fps * 1.1, video_fps)`
(the float `1.1` taken exactly as `11/10`), and at end-of-source the read
step rewinds the source to frame 0 and continues — the next read yields
the first frame again instead of terminating. -/
theorem capture_rate_and_loop_playback :
    (∀ t v : ℚ, read_fps t v = min (t * (11 / 10)) v) ∧
    (∀ cs : CapState, cs.source.length ≤ cs.pos →
      readStep cs = (⟨0, cs.source⟩, none)) ∧
    (∀ src : List Frame, (readStep ⟨0, src⟩).2 = src.head?) := by
  refine ⟨fun t v => rfl, ?_, ?_⟩
  · rintro ⟨pos, src⟩ hcs
    simp only at hcs
    have hnot : ¬ pos < src.length := by omega
    simp [readStep, capRead, hnot]
  · intro src
    cases src with
    | nil => simp [readStep, capRead]
    | cons a t => simp [readStep, capRead]

theorem capture_rate_and_loop_playback_witness :
    readStep ⟨2, [[5]]⟩ = (⟨0, [[5]]⟩, none) :=
  capture_rate_and_loop_playback.2.1 ⟨2, [[5]]⟩ (by decide)

/-- C9: `frames_received` is incremented exactly when a complete framed
payload has been read, before any decode is attempted, while
`frames_dropped` is incremented both on a decode failure of a complete
payload and on the header-unpacking exception; consequently, in the run
delivering one complete undecodable frame and then one short header,
`frames_dropped = 2` exceeds `frames_received = 1` and the drop-rate
metric reads 200%. -/
theorem recv_counter_semantics :
    (∀ (d : List Nat → Option Frame) (s : ByteStream) (st : RecvStats),
      (receive_frame d s st).2.2.frames_received =
        st.frames_received +
          (match (read_framed s).1 with
           | .complete _ _ => 1
           | _ => 0) ∧
      (receive_frame d s st).2.2.frames_dropped =
        st.frames_dropped +
          (match (read_framed s).1 with
           | .badHeader => 1
           | .complete _ data => if (d data).isNone then 1 else 0
           | _ => 0)) ∧
    (runReceives (fun _ => none) [[frameWire [7]], [[0]]] stats0).frames_received
      = 1 ∧
    (runReceives (fun _ => none) [[frameWire [7]], [[0]]] stats0).frames_dropped
      = 2 ∧
    (runReceives (fun _ => none) [[frameWire [7]], [[0]]] stats0).frames_received
      < (runReceives (fun _ => none) [[frameWire [7]], [[0]]] stats0).frames_dropped ∧
    dropRate (runReceives (fun _ => none) [[frameWire [7]], [[0]]] stats0) = 200 := by
  refine ⟨?_, by decide, by decide, by decide, ?_⟩
  case refine_2 =>
    have hrec : (runReceives (fun _ => none) [[frameWire [7]], [[0]]] stats0).frames_received
        = 1 := by decide
    have hdrop : (runReceives (fun _ => none) [[frameWire [7]], [[0]]] stats0).frames_dropped
        = 2 := by decide
    rw [dropRate, hrec, hdrop, if_pos (by norm_num)]
    norm_num
  intro d s st
  rcases hrf : read_framed s with ⟨r, s1⟩
  cases r with
  | closed => simp [receive_frame, hrf]
  | badHeader => simp [receive_frame, hrf]
  | shortPayload => simp [receive_frame, hrf]
  | complete size data =>
    cases hdp : d data with
    | none => simp [receive_frame, hrf, hdp]
    | some f => simp [receive_frame, hrf, hdp]

/-- C10: when the socket write fails, `send_frame` returns `False` and
leaves `bytes_sent`, `packets_sent` and the `frame_times` window
untouched, but `frame_sizes` has already been extended with the failed
frame's serialized size — so the rolling average-frame-size window
contains a frame that was never transmitted. -/
theorem send_frame_failed_write (st : SendStats) (data : List Nat) (elapsed : ℚ) :
    send_frame st true data false elapsed
      = (false, { st with frame_sizes := dequeAppend 30 st.frame_sizes data.length }) ∧
    data.length ∈ (send_frame st true data false elapsed).2.frame_sizes ∧
    (send_frame st true data false elapsed).2.bytes_sent = st.bytes_sent ∧
    (send_frame st true data false elapsed).2.packets_sent = st.packets_sent ∧
    (send_frame st true data false elapsed).2.frame_times = st.frame_times := by
  have h1 : send_frame st true data false elapsed
      = (false, { st with frame_sizes := dequeAppend 30 st.frame_sizes data.length }) := by
    simp [send_frame]
  refine ⟨h1, ?_, ?_, ?_, ?_⟩ <;> rw [h1]
  · show data.length ∈ dequeAppend 30 st.frame_sizes data.length
    simp only [dequeAppend]
    split <;> simp

end WebRTCStream
